import Mathlib

/-!
Verification development for the pipeline orchestrator and in-memory messaging
client of this repository.

The Python sources embedded here:
* `src/services/orchestrator-agent/main.py` — `OrchestratorAgent`
  (`determine_stage_from_message`, `extract_pipeline_id`,
  `update_pipeline_status`, `process_pipeline_message`,
  `pipeline_monitoring_loop`, `cleanup_old_pipelines_loop`);
* `src/src/common/messaging_simple.py` — `SimpleMessagingClient`
  (`start`, `stop`, `publish`, `subscribe`).

Modelling conventions:
* a Python message dict is `Msg`: its top-level keys with stringified values
  (Python reads field values only through `str(...)`), its `metadata` sub-dict,
  and `body`, the `str(message)` serialization of the whole dict;
* wall-clock times (`time.time()`) are integers passed explicitly;
* Python's in-process string `hash` is modelled by the fixed function `pyHash`
  (within one process, equal strings hash equally — the only property the
  code relies on);
* stateful methods become pure state-passing functions; orchestration-event
  publishes are recorded in an event log inside the state;
* handler callbacks of the messaging client are identified by numeric tokens,
  and a `publish` returns the list of callback invocations it performs.
-/

/-- A pipeline message: top-level fields (value as its `str()`), the
`metadata` sub-dict, and the `str(message)` serialization used for hashing. -/
structure Msg where
  top : List (String × String)
  meta : List (String × String)
  body : String
deriving DecidableEq, Repr

/-- First-match lookup in an association list (Python dict access). -/
def lookupStr : List (String × String) → String → Option String
  | [], _ => none
  | (k, v) :: rest, f => if k = f then some v else lookupStr rest f

/-- `message[field]` as `str`, or `none` when `field not in message`. -/
def getField (m : Msg) (f : String) : Option String := lookupStr m.top f

/-- `message.get("metadata", {})[field]`, or `none` when absent. -/
def getMeta (m : Msg) (f : String) : Option String := lookupStr m.meta f

/-- Python's `field in message`. -/
def hasField (m : Msg) (f : String) : Bool := (getField m f).isSome

/-- `pat` begins the character list `s`. -/
def startsWithChars : List Char → List Char → Bool
  | [], _ => true
  | _ :: _, [] => false
  | a :: as, b :: bs => a = b && startsWithChars as bs

/-- `pat` occurs contiguously somewhere in the character list. -/
def containsChars (pat : List Char) : List Char → Bool
  | [] => startsWithChars pat []
  | c :: rest => startsWithChars pat (c :: rest) || containsChars pat rest

/-- Python's substring test `pat in s`. -/
def containsSub (s pat : String) : Bool := containsChars pat.toList s.toList

/-- Models Python's builtin `hash` on the serialized message body.  Python
guarantees only that equal strings hash equally within one process; any fixed
function of the string has exactly that property, so a concrete polynomial
hash stands in for the interpreter's. -/
def pyHash (s : String) : Nat :=
  s.foldl (fun h c => (h * 131 + c.toNat) % 1000000007) 0

/-- `OrchestratorAgent.stage_order`. -/
def stage_order : List String :=
  ["analysis", "planning", "blueprint", "coding", "testing", "deployment"]

/-- The TestOutput fields probed first by `determine_stage_from_message`. -/
def result_fields : List String :=
  ["test_results", "coverage_report", "quality_metrics", "overall_status"]

/-- The structural (`# Check message structure`) tail of
`determine_stage_from_message`, reached when neither the result-field probe
nor the metadata agent hint returned. -/
def structural_stage (m : Msg) : String :=
  if hasField m "plan_id" then "planning"
  else if hasField m "blueprint_id" then "blueprint"
  else if hasField m "code_id" then "coding"
  else if hasField m "test_id" then "testing"
  else if hasField m "tasks" then "analysis"
  else "unknown"

/-- `OrchestratorAgent.determine_stage_from_message`. -/
def determine_stage_from_message (m : Msg) : String :=
  if result_fields.any (fun f => hasField m f) then "deployment"
  else
    match getMeta m "agent" with
    | some agent =>
        if containsSub agent "test-agent" then "deployment"
        else if containsSub agent "planning" then "planning"
        else if containsSub agent "blueprint" then "blueprint"
        else if containsSub agent "code" then "coding"
        else if containsSub agent "analysis" then "analysis"
        else structural_stage m
    | none => structural_stage m

/-- The field list probed directly by `extract_pipeline_id`. -/
def id_fields : List String :=
  ["pipeline_id", "request_id", "plan_id", "blueprint_id", "code_id", "test_id"]

/-- The metadata field list probed next by `extract_pipeline_id`. -/
def metadata_id_fields : List String :=
  ["pipeline_id", "request_id", "parent_id"]

/-- The `for field in [...]: if field in message: return str(message[field])`
loop of `extract_pipeline_id`. -/
def firstFieldValue (look : String → Option String) : List String → Option String
  | [] => none
  | f :: fs =>
    match look f with
    | some v => some v
    | none => firstFieldValue look fs

/-- `OrchestratorAgent.extract_pipeline_id`. -/
def extract_pipeline_id (m : Msg) : String :=
  match firstFieldValue (getField m) id_fields with
  | some v => v
  | none =>
    match firstFieldValue (getMeta m) metadata_id_fields with
    | some v => v
    | none => "pipeline_" ++ toString (pyHash m.body % 100000)

/-- Spec-side agent-hint probe: the metadata `agent` value contains `sub`. -/
def agentHint (m : Msg) (sub : String) : Bool :=
  match getMeta m "agent" with
  | some agent => containsSub agent sub
  | none => false

/-- Spec-side ordered classifier list (the design note's "ordered list of pure
classifier functions"), in the order the code actually applies:
result-shaped fields first, then the agent hints, then the id-shaped fields. -/
def stage_classifiers : List ((Msg → Bool) × String) :=
  [ (fun m => result_fields.any (fun f => hasField m f), "deployment"),
    (fun m => agentHint m "test-agent", "deployment"),
    (fun m => agentHint m "planning", "planning"),
    (fun m => agentHint m "blueprint", "blueprint"),
    (fun m => agentHint m "code", "coding"),
    (fun m => agentHint m "analysis", "analysis"),
    (fun m => hasField m "plan_id", "planning"),
    (fun m => hasField m "blueprint_id", "blueprint"),
    (fun m => hasField m "code_id", "coding"),
    (fun m => hasField m "test_id", "testing"),
    (fun m => hasField m "tasks", "analysis") ]

/-- First classifier that matches wins; none matching means `unknown`. -/
def firstMatch (m : Msg) : List ((Msg → Bool) × String) → String
  | [] => "unknown"
  | c :: rest => if c.1 m then c.2 else firstMatch m rest

/-- Spec-side stage classification: first-match over `stage_classifiers`. -/
def determine_stage_spec (m : Msg) : String := firstMatch m stage_classifiers

/-- Spec-side pipeline-id extraction, written as the spec sentence reads:
direct `pipeline_id`/`request_id`; else the stage-specific id fields; else
nested metadata ids; else the deterministic hash of the body. -/
def extract_pipeline_id_spec (m : Msg) : String :=
  match getField m "pipeline_id" with
  | some v => v
  | none =>
  match getField m "request_id" with
  | some v => v
  | none =>
  match getField m "plan_id" with
  | some v => v
  | none =>
  match getField m "blueprint_id" with
  | some v => v
  | none =>
  match getField m "code_id" with
  | some v => v
  | none =>
  match getField m "test_id" with
  | some v => v
  | none =>
  match getMeta m "pipeline_id" with
  | some v => v
  | none =>
  match getMeta m "request_id" with
  | some v => v
  | none =>
  match getMeta m "parent_id" with
  | some v => v
  | none => "pipeline_" ++ toString (pyHash m.body % 100000)

/-- The `PipelineStatus` pydantic model of the orchestrator. -/
structure PipelineStatus where
  pipeline_id : String
  request_id : String
  current_stage : String
  stages_completed : List String
  stages_pending : List String
  start_time : Int
  last_update_time : Int
  total_duration : Option Int
  status : String
deriving DecidableEq, Repr

/-- An orchestration event as published by `publish_orchestration_event`
(only the components the claims inspect: type, pipeline id, stage). -/
structure Event where
  event_type : String
  pipeline_id : String
  stage : String
deriving DecidableEq, Repr

/-- A `PipelineMessage` history entry. -/
structure PipelineMessage where
  message_id : String
  stage : String
  status : String
  timestamp : Int
  data : Msg
deriving DecidableEq, Repr

/-- The `PipelineMessage` built at the top of `process_pipeline_message`. -/
def mkPipelineMessage (m : Msg) (now : Int) : PipelineMessage :=
  { message_id := "msg_" ++ toString now ++ "_" ++ toString (pyHash m.body % 10000),
    stage := determine_stage_from_message m,
    status := "received",
    timestamp := now,
    data := m }

/-- The orchestrator's mutable state: `active_pipelines` (a dict, modelled as
a key-unique association list), `message_history`, and the log of
orchestration events it has published. -/
structure OrchState where
  active_pipelines : List (String × PipelineStatus)
  message_history : List PipelineMessage
  events : List Event
deriving DecidableEq, Repr

/-- Python dict read `active_pipelines[pid]` / `pid in active_pipelines`. -/
def lookupP : List (String × PipelineStatus) → String → Option PipelineStatus
  | [], _ => none
  | (k, v) :: rest, pid => if k = pid then some v else lookupP rest pid

/-- Python dict write `active_pipelines[pid] = p`. -/
def setP : List (String × PipelineStatus) → String → PipelineStatus → List (String × PipelineStatus)
  | [], pid, p => [(pid, p)]
  | (k, v) :: rest, pid, p =>
    if k = pid then (k, p) :: rest else (k, v) :: setP rest pid p

/-- The fresh `PipelineStatus` created on first sight of a pipeline id. -/
def freshPipeline (pid stage : String) (now : Int) : PipelineStatus :=
  { pipeline_id := pid,
    request_id := pid,
    current_stage := stage,
    stages_completed := [],
    stages_pending := stage_order,
    start_time := now,
    last_update_time := now,
    total_duration := none,
    status := "running" }

/-- The per-pipeline body of `update_pipeline_status`: takes the tracked
entry (or `none` on first sight), returns the updated entry and the
orchestration events published during this call, in publish order. -/
def updP (p? : Option PipelineStatus) (pid stage : String) (now : Int) :
    PipelineStatus × List Event :=
  let p0 := match p? with
    | some p => p
    | none => freshPipeline pid stage now
  let evs0 : List Event := match p? with
    | some _ => []
    | none => [⟨"pipeline_started", pid, stage⟩]
  let p1 := { p0 with current_stage := stage, last_update_time := now }
  let p2 :=
    if stage ∈ p1.stages_completed then p1
    else { p1 with stages_completed := p1.stages_completed ++ [stage],
                   stages_pending := p1.stages_pending.erase stage }
  let evs1 :=
    if stage ∈ p1.stages_completed then evs0
    else evs0 ++ [⟨"stage_completed", pid, stage⟩]
  if stage_order.length ≤ p2.stages_completed.length then
    ({ p2 with status := "completed", total_duration := some (now - p2.start_time) },
     evs1 ++ [⟨"pipeline_completed", pid, stage⟩])
  else if 600 < now - p2.last_update_time then
    ({ p2 with status := "stalled" }, evs1 ++ [⟨"pipeline_stalled", pid, stage⟩])
  else (p2, evs1)

/-- `OrchestratorAgent.update_pipeline_status`. -/
def update_pipeline_status (st : OrchState) (pid stage : String) (now : Int) : OrchState :=
  let r := updP (lookupP st.active_pipelines pid) pid stage now
  { st with active_pipelines := setP st.active_pipelines pid r.1,
            events := st.events ++ r.2 }

/-- `OrchestratorAgent.process_pipeline_message` (metrics and the websocket
broadcast have no effect on the state modelled here). -/
def process_pipeline_message (st : OrchState) (m : Msg) (now : Int) : OrchState :=
  let stage := determine_stage_from_message m
  let pid := extract_pipeline_id m
  let entry := mkPipelineMessage m now
  let history := st.message_history ++ [entry]
  let history := if 1000 < history.length then history.drop (history.length - 1000) else history
  update_pipeline_status { st with message_history := history } pid stage now

/-- The stall condition of `pipeline_monitoring_loop`:
`status == "running"` and more than 600 seconds since the last update. -/
def isStalled (now : Int) (p : PipelineStatus) : Bool :=
  p.status == "running" && decide (600 < now - p.last_update_time)

/-- Effect of the monitoring sweep on one pipeline. -/
def sweepP (now : Int) (p : PipelineStatus) : PipelineStatus :=
  if isStalled now p then { p with status := "stalled" } else p

/-- One pass of `pipeline_monitoring_loop`: mark stale running pipelines
stalled and publish a `pipeline_stalled` event for each. -/
def pipeline_monitoring_pass (st : OrchState) (now : Int) : OrchState :=
  { st with
    active_pipelines := st.active_pipelines.map (fun kv => (kv.1, sweepP now kv.2)),
    events := st.events ++
      (st.active_pipelines.filter (fun kv => isStalled now kv.2)).map
        (fun kv => ⟨"pipeline_stalled", kv.1, kv.2.current_stage⟩) }

/-- One pass of `cleanup_old_pipelines_loop`: drop completed/failed pipelines
whose last update predates the one-hour retention cutoff. -/
def cleanup_old_pipelines_pass (st : OrchState) (now : Int) : OrchState :=
  { st with
    active_pipelines := st.active_pipelines.filter
      (fun kv => !((kv.2.status == "completed" || kv.2.status == "failed")
                    && decide (kv.2.last_update_time < now - 3600))) }

/-- One scheduling step of the orchestrator: an inbound message, a monitoring
sweep pass, or a cleanup pass, each at an explicit wall-clock time. -/
inductive Step where
  | msg (m : Msg) (now : Int)
  | sweep (now : Int)
  | cleanup (now : Int)

/-- Apply one step to the orchestrator state. -/
def applyStep (st : OrchState) : Step → OrchState
  | Step.msg m now => process_pipeline_message st m now
  | Step.sweep now => pipeline_monitoring_pass st now
  | Step.cleanup now => cleanup_old_pipelines_pass st now

/-- The freshly constructed orchestrator: no pipelines, no history, no events. -/
def initState : OrchState := ⟨[], [], []⟩

/-- Run the orchestrator from start over a schedule of steps. -/
def run (steps : List Step) : OrchState := steps.foldl applyStep initState

/-- States the orchestrator can actually be in. -/
def Reachable (st : OrchState) : Prop := ∃ steps, run steps = st

/-- Process a list of timed messages from a given state. -/
def runMsgs (st : OrchState) (msgs : List (Msg × Int)) : OrchState :=
  msgs.foldl (fun s x => process_pipeline_message s x.1 x.2) st

/-- The in-memory `SimpleMessagingClient`: its `topics` dict maps a topic to
the list of registered callbacks (identified by numeric tokens), plus the
`is_running` flag. -/
structure SimpleMessagingClient where
  topics : List (String × List Nat)
  is_running : Bool
deriving DecidableEq, Repr

namespace SimpleMessagingClient

/-- `self.topics.get(topic)`. -/
def lookupT : List (String × List Nat) → String → Option (List Nat)
  | [], _ => none
  | (k, v) :: rest, t => if k = t then some v else lookupT rest t

/-- `if topic not in self.topics: self.topics[topic] = []` then
`self.topics[topic].append(callback)`. -/
def addCallback : List (String × List Nat) → String → Nat → List (String × List Nat)
  | [], topic, cb => [(topic, [cb])]
  | (k, cbs) :: rest, topic, cb =>
    if k = topic then (k, cbs ++ [cb]) :: rest
    else (k, cbs) :: addCallback rest topic cb

/-- `SimpleMessagingClient.start`. -/
def start (c : SimpleMessagingClient) : SimpleMessagingClient :=
  { c with is_running := true }

/-- `SimpleMessagingClient.stop`. -/
def stop (c : SimpleMessagingClient) : SimpleMessagingClient :=
  { c with is_running := false }

/-- `SimpleMessagingClient.subscribe`: registers the callback under the
topic; the `group_id` argument is only logged by the source, never stored. -/
def subscribe (c : SimpleMessagingClient) (topic : String) (callback : Nat)
    (_group_id : Option String) : SimpleMessagingClient :=
  { c with topics := addCallback c.topics topic callback }

/-- `SimpleMessagingClient.publish`: returns the (unchanged) client and the
list of callback invocations performed, in order.  The source method drops
the message when the client is not running, mutates nothing, and catches any
callback exception, so the invocation list is its whole observable effect. -/
def publish (c : SimpleMessagingClient) (topic : String) (message : Msg) :
    SimpleMessagingClient × List (Nat × Msg) :=
  if !c.is_running then (c, [])
  else
    match lookupT c.topics topic with
    | none => (c, [])
    | some cbs => (c, cbs.map (fun cb => (cb, message)))

/-- The callbacks currently registered for a topic. -/
def topicCallbacks (c : SimpleMessagingClient) (topic : String) : List Nat :=
  (lookupT c.topics topic).getD []

end SimpleMessagingClient

/-- Key uniqueness of the pipeline dict. -/
def keysND (ps : List (String × PipelineStatus)) : Prop :=
  (ps.map Prod.fst).Nodup

/-- How many `pipeline_completed` events for `pid` an event list holds. -/
def completedEventCount (evs : List Event) (pid : String) : Nat :=
  (evs.filter (fun e => e.event_type == "pipeline_completed" && e.pipeline_id == pid)).length


/-!  The orchestrator's state invariant. -/

/-- Invariant of every reachable orchestrator state: the pipeline dict is
key-unique, recorded stage lists never hold duplicates, and a pipeline is in
status `completed` exactly when it has at least six recorded stages. -/
def StateInv (st : OrchState) : Prop :=
  keysND st.active_pipelines ∧
  ∀ pid p, lookupP st.active_pipelines pid = some p →
    p.stages_completed.Nodup ∧
    (p.status = "completed" ↔ 6 ≤ p.stages_completed.length)

/-- Folding `update_pipeline_status` over the (stage, time) pairs of the
messages of one pipeline, starting from a tracked entry. -/
def foldPipe (p : PipelineStatus) (pid : String) : List (String × Int) → PipelineStatus
  | [] => p
  | (stage, now) :: rest => foldPipe (updP (some p) pid stage now).1 pid rest

/-- The last `n` elements of a list (Python's `l[-n:]`). -/
def lastN {α : Type} (n : Nat) (l : List α) : List α := l.drop (l.length - n)

/-- The history entries a schedule of steps generates, in processing order
(sweep and cleanup passes touch no history). -/
def traceEntries : List Step → List PipelineMessage
  | [] => []
  | Step.msg m now :: rest => mkPipelineMessage m now :: traceEntries rest
  | Step.sweep _ :: rest => traceEntries rest
  | Step.cleanup _ :: rest => traceEntries rest

def c4msg : Msg := ⟨[("test_results", "passed")], [("agent", "planning-agent")], "c4"⟩

def c7m1 : Msg := ⟨[("foo", "1")], [], "same-body"⟩

def c7m2 : Msg := ⟨[], [("note", "x")], "same-body"⟩

def c10client : SimpleMessagingClient :=
  SimpleMessagingClient.stop
    (SimpleMessagingClient.subscribe
      (SimpleMessagingClient.start ⟨[], false⟩)
      "tasks.analysis" 1 (some "orchestrator-agent-group"))

def c10msg : Msg := ⟨[("tasks", "[]")], [], "c10"⟩

def c5client : SimpleMessagingClient :=
  SimpleMessagingClient.subscribe
    (SimpleMessagingClient.subscribe
      (SimpleMessagingClient.start ⟨[], false⟩)
      "tasks.planning" 1 (some "workers"))
    "tasks.planning" 2 (some "workers")

def c5msg : Msg := ⟨[("plan_id", "p5")], [], "c5"⟩

def c1steps : List Step :=
  [ Step.msg ⟨[("pipeline_id", "p1")], [], "c1a"⟩ 0,
    Step.msg ⟨[("pipeline_id", "p1"), ("plan_id", "x")], [], "c1b"⟩ 1,
    Step.msg ⟨[("pipeline_id", "p1"), ("blueprint_id", "x")], [], "c1c"⟩ 2,
    Step.msg ⟨[("pipeline_id", "p1"), ("code_id", "x")], [], "c1d"⟩ 3,
    Step.msg ⟨[("pipeline_id", "p1"), ("test_id", "x")], [], "c1e"⟩ 4,
    Step.msg ⟨[("pipeline_id", "p1"), ("test_results", "ok")], [], "c1f"⟩ 5 ]

def c1wsteps : List Step := [Step.msg ⟨[("plan_id", "w1")], [], "w1a"⟩ 0]

def c2six : List Step :=
  [ Step.msg ⟨[("plan_id", "p2")], [], "c2a"⟩ 0,
    Step.msg ⟨[("blueprint_id", "p2")], [], "c2b"⟩ 1,
    Step.msg ⟨[("request_id", "p2"), ("tasks", "[]")], [], "c2c"⟩ 2,
    Step.msg ⟨[("request_id", "p2"), ("code_id", "c")], [], "c2d"⟩ 3,
    Step.msg ⟨[("request_id", "p2"), ("test_id", "t")], [], "c2e"⟩ 4,
    Step.msg ⟨[("request_id", "p2"), ("overall_status", "ok")], [], "c2f"⟩ 5 ]

def c2seven : List Step :=
  c2six ++ [Step.msg ⟨[("request_id", "p2"), ("overall_status", "ok")], [], "c2f"⟩ 6]

def c6msg : Msg := ⟨[("plan_id", "w6")], [], "w6a"⟩

def c6steps : List Step := [Step.msg c6msg 0]

def c6p : PipelineStatus :=
  { pipeline_id := "w6", request_id := "w6", current_stage := "planning",
    stages_completed := ["planning"],
    stages_pending := ["analysis", "blueprint", "coding", "testing", "deployment"],
    start_time := 0, last_update_time := 0, total_duration := none,
    status := "running" }

def c8msg : Msg := ⟨[("plan_id", "w8")], [], "w8a"⟩

def c8steps : List Step := [Step.msg c8msg 0]

def c8p : PipelineStatus :=
  { pipeline_id := "w8", request_id := "w8", current_stage := "planning",
    stages_completed := ["planning"],
    stages_pending := ["analysis", "blueprint", "coding", "testing", "deployment"],
    start_time := 0, last_update_time := 0, total_duration := none,
    status := "running" }

def c8p' : PipelineStatus :=
  { pipeline_id := "w8", request_id := "w8", current_stage := "planning",
    stages_completed := ["planning"],
    stages_pending := ["analysis", "blueprint", "coding", "testing", "deployment"],
    start_time := 0, last_update_time := 1001, total_duration := none,
    status := "stalled" }

def c8swept : OrchState := pipeline_monitoring_pass (run c8steps) 1000

def c3msgs : List (Msg × Int) :=
  [ (⟨[("plan_id", "w3")], [], "w3a"⟩, 0),
    (⟨[("blueprint_id", "w3")], [], "w3b"⟩, 1),
    (⟨[("request_id", "w3"), ("tasks", "[]")], [], "w3c"⟩, 2),
    (⟨[("request_id", "w3"), ("code_id", "c")], [], "w3d"⟩, 3),
    (⟨[("request_id", "w3"), ("test_id", "t")], [], "w3e"⟩, 4),
    (⟨[("request_id", "w3"), ("overall_status", "ok")], [], "w3f"⟩, 5) ]

theorem lookupP_setP_self (ps : List (String × PipelineStatus)) (pid : String)
    (p : PipelineStatus) : lookupP (setP ps pid p) pid = some p := by
  induction ps with
  | nil => simp [setP, lookupP]
  | cons kv rest ih =>
    by_cases h : kv.1 = pid
    · simp [setP, lookupP, h]
    · simp [setP, lookupP, h, ih]

theorem lookupP_setP_ne (ps : List (String × PipelineStatus)) (pid q : String)
    (p : PipelineStatus) (h : q ≠ pid) :
    lookupP (setP ps pid p) q = lookupP ps q := by
  induction ps with
  | nil => simp [setP, lookupP, h, Ne.symm h]
  | cons kv rest ih =>
    by_cases hk : kv.1 = pid
    · simp [setP, lookupP, hk, h, Ne.symm h]
    · by_cases hq : kv.1 = q
      · simp [setP, lookupP, hk, hq, h]
      · simp [setP, lookupP, hk, hq, ih]

theorem mem_of_lookupP (ps : List (String × PipelineStatus)) (pid : String)
    (p : PipelineStatus) (h : lookupP ps pid = some p) : (pid, p) ∈ ps := by
  induction ps with
  | nil => simp [lookupP] at h
  | cons kv rest ih =>
    obtain ⟨k, v⟩ := kv
    by_cases hk : k = pid
    · subst hk
      simp only [lookupP, if_true, eq_self_iff_true, Option.some.injEq] at h
      subst h
      exact List.mem_cons_self _ _
    · simp only [lookupP, if_neg hk] at h
      exact List.mem_cons_of_mem _ (ih h)

theorem mem_keys_setP (ps : List (String × PipelineStatus)) (pid x : String)
    (p : PipelineStatus) (h : x ∈ (setP ps pid p).map Prod.fst) :
    x ∈ ps.map Prod.fst ∨ x = pid := by
  induction ps with
  | nil => simp [setP] at h; simp [h]
  | cons kv rest ih =>
    by_cases hk : kv.1 = pid
    · simp only [setP, if_pos hk] at h
      simp only [List.map_cons, List.mem_cons] at h ⊢
      tauto
    · simp only [setP, if_neg hk] at h
      simp only [List.map_cons, List.mem_cons] at h ⊢
      rcases h with h | h
      · tauto
      · rcases ih h with h' | h' <;> tauto

theorem keysND_setP (ps : List (String × PipelineStatus)) (pid : String)
    (p : PipelineStatus) (h : keysND ps) : keysND (setP ps pid p) := by
  induction ps with
  | nil => simp [keysND, setP]
  | cons kv rest ih =>
    simp only [keysND, List.map_cons, List.nodup_cons] at h
    by_cases hk : kv.1 = pid
    · simpa [keysND, setP, hk, List.nodup_cons] using h
    · have := ih h.2
      simp only [keysND, setP, if_neg hk, List.map_cons, List.nodup_cons]
      refine ⟨fun hmem => ?_, this⟩
      rcases mem_keys_setP rest pid kv.1 p hmem with h' | h'
      · exact h.1 h'
      · exact hk h'

theorem lookupP_of_mem (ps : List (String × PipelineStatus)) (pid : String)
    (p : PipelineStatus) (hnd : keysND ps) (h : (pid, p) ∈ ps) :
    lookupP ps pid = some p := by
  induction ps with
  | nil => simp at h
  | cons kv rest ih =>
    simp only [keysND, List.map_cons, List.nodup_cons] at hnd
    rcases List.mem_cons.mp h with h' | h'
    · cases h'
      simp [lookupP]
    · have hk : kv.1 ≠ pid := by
        intro he
        exact hnd.1 (he ▸ (List.mem_map.mpr ⟨(pid, p), h', rfl⟩))
      simp [lookupP, hk, ih hnd.2 h']

theorem lookupP_map (ps : List (String × PipelineStatus)) (pid : String)
    (f : PipelineStatus → PipelineStatus) :
    lookupP (ps.map (fun kv => (kv.1, f kv.2))) pid = (lookupP ps pid).map f := by
  induction ps with
  | nil => simp [lookupP]
  | cons kv rest ih =>
    by_cases hk : kv.1 = pid
    · simp [lookupP, hk]
    · simp [lookupP, hk, ih]

theorem lookupP_filter (ps : List (String × PipelineStatus)) (pid : String)
    (p : PipelineStatus) (pred : String × PipelineStatus → Bool) (hnd : keysND ps)
    (h : lookupP (ps.filter pred) pid = some p) : lookupP ps pid = some p := by
  have hmem := mem_of_lookupP _ _ _ h
  exact lookupP_of_mem ps pid p hnd (List.mem_of_mem_filter hmem)

theorem keysND_map (ps : List (String × PipelineStatus))
    (f : PipelineStatus → PipelineStatus) (h : keysND ps) :
    keysND (ps.map (fun kv => (kv.1, f kv.2))) := by
  simpa [keysND, List.map_map, Function.comp_def] using h

theorem keysND_filter (ps : List (String × PipelineStatus))
    (pred : String × PipelineStatus → Bool) (h : keysND ps) :
    keysND (ps.filter pred) :=
  List.Nodup.sublist (List.Sublist.map Prod.fst (List.filter_sublist ps)) h

theorem lookup_update (st : OrchState) (pid stage : String) (now : Int) :
    lookupP (update_pipeline_status st pid stage now).active_pipelines pid =
      some (updP (lookupP st.active_pipelines pid) pid stage now).1 := by
  simp [update_pipeline_status, lookupP_setP_self]

theorem lookup_update_ne (st : OrchState) (pid stage q : String) (now : Int)
    (h : q ≠ pid) :
    lookupP (update_pipeline_status st pid stage now).active_pipelines q =
      lookupP st.active_pipelines q := by
  simp [update_pipeline_status, lookupP_setP_ne _ _ _ _ h]

theorem process_active_pipelines (st : OrchState) (m : Msg) (now : Int) :
    (process_pipeline_message st m now).active_pipelines =
      setP st.active_pipelines (extract_pipeline_id m)
        (updP (lookupP st.active_pipelines (extract_pipeline_id m))
          (extract_pipeline_id m) (determine_stage_from_message m) now).1 := rfl

theorem process_events (st : OrchState) (m : Msg) (now : Int) :
    (process_pipeline_message st m now).events =
      st.events ++
        (updP (lookupP st.active_pipelines (extract_pipeline_id m))
          (extract_pipeline_id m) (determine_stage_from_message m) now).2 := rfl

/-- The stage set recorded after one update: unchanged on a repeated stage,
extended by the new stage otherwise. -/
theorem updP_stages (p? : Option PipelineStatus) (pid stage : String) (now : Int) :
    (updP p? pid stage now).1.stages_completed =
      match p? with
      | some p =>
        if stage ∈ p.stages_completed then p.stages_completed
        else p.stages_completed ++ [stage]
      | none => [stage] := by
  cases p? <;> simp only [updP, freshPipeline] <;> split_ifs <;> simp_all

/-- The start time is fixed at creation and never moves. -/
theorem updP_start (p? : Option PipelineStatus) (pid stage : String) (now : Int) :
    (updP p? pid stage now).1.start_time =
      match p? with
      | some p => p.start_time
      | none => now := by
  cases p? <;> simp only [updP, freshPipeline] <;> split_ifs <;> simp_all

/-- Status after one update: `completed` exactly when at least the six
canonical stage slots are filled; otherwise the previous status survives
(the in-handler stall branch compares `now` with itself and can never fire). -/
theorem updP_status (p? : Option PipelineStatus) (pid stage : String) (now : Int) :
    (updP p? pid stage now).1.status =
      if 6 ≤ (updP p? pid stage now).1.stages_completed.length then "completed"
      else
        match p? with
        | some p => p.status
        | none => "running" := by
  cases p? <;>
    simp only [updP, freshPipeline, stage_order, List.length_cons, List.length_nil] <;>
    split_ifs <;> simp_all

/-- `total_duration` after one update: reassigned to `now - start_time`
whenever the six slots are filled, untouched otherwise. -/
theorem updP_duration (p? : Option PipelineStatus) (pid stage : String) (now : Int) :
    (updP p? pid stage now).1.total_duration =
      if 6 ≤ (updP p? pid stage now).1.stages_completed.length then
        some (now - (updP p? pid stage now).1.start_time)
      else
        match p? with
        | some p => p.total_duration
        | none => none := by
  cases p? <;>
    simp only [updP, freshPipeline, stage_order, List.length_cons, List.length_nil] <;>
    split_ifs <;> simp_all

theorem completedEventCount_append (a b : List Event) (pid : String) :
    completedEventCount (a ++ b) pid =
      completedEventCount a pid + completedEventCount b pid := by
  simp [completedEventCount, List.filter_append]

/-- One update publishes exactly one `pipeline_completed` event when the six
slots are filled afterwards and none otherwise. -/
theorem updP_events_count (p? : Option PipelineStatus) (pid stage : String) (now : Int) :
    completedEventCount (updP p? pid stage now).2 pid =
      if 6 ≤ (updP p? pid stage now).1.stages_completed.length then 1 else 0 := by
  cases p? <;>
    simp only [updP, freshPipeline, stage_order, List.length_cons, List.length_nil] <;>
    split_ifs <;> simp_all [completedEventCount]

theorem inv_init : StateInv initState := by
  constructor
  · simp [keysND, initState]
  · intro pid p h
    simp [initState, lookupP] at h

theorem inv_updP (p? : Option PipelineStatus) (pid stage : String) (now : Int)
    (h : ∀ p, p? = some p →
      p.stages_completed.Nodup ∧ (p.status = "completed" ↔ 6 ≤ p.stages_completed.length)) :
    (updP p? pid stage now).1.stages_completed.Nodup ∧
    ((updP p? pid stage now).1.status = "completed" ↔
      6 ≤ (updP p? pid stage now).1.stages_completed.length) := by
  have hstages := updP_stages p? pid stage now
  have hstatus := updP_status p? pid stage now
  cases p? with
  | none =>
    refine ⟨?_, ?_⟩
    · rw [hstages]
      exact List.nodup_singleton stage
    · rw [hstatus, hstages]
      simp
  | some p =>
    obtain ⟨hnd, hiff⟩ := h p rfl
    by_cases hmem : stage ∈ p.stages_completed
    · simp only [hstages, if_pos hmem] at hstatus ⊢
      refine ⟨hnd, ?_⟩
      rw [hstatus]
      by_cases hlen : 6 ≤ p.stages_completed.length
      · rw [if_pos hlen]
        simp [hlen]
      · rw [if_neg hlen]
        exact hiff
    · simp only [hstages, if_neg hmem] at hstatus ⊢
      constructor
      · exact ((List.perm_append_singleton stage p.stages_completed).nodup_iff).mpr
          (List.nodup_cons.mpr ⟨hmem, hnd⟩)
      · rw [hstatus]
        by_cases hlen : 6 ≤ (p.stages_completed ++ [stage]).length
        · rw [if_pos hlen]
          simpa using hlen
        · rw [if_neg hlen]
          constructor
          · intro hc
            have h6 := hiff.mp hc
            simp only [List.length_append, List.length_singleton] at hlen
            exact absurd (by omega) hlen
          · intro hc
            exact absurd hc hlen

theorem inv_process (st : OrchState) (m : Msg) (now : Int) (h : StateInv st) :
    StateInv (process_pipeline_message st m now) := by
  obtain ⟨hk, hp⟩ := h
  constructor
  · rw [process_active_pipelines]
    exact keysND_setP _ _ _ hk
  · intro qid q hq
    rw [process_active_pipelines] at hq
    by_cases he : qid = extract_pipeline_id m
    · subst he
      rw [lookupP_setP_self] at hq
      cases hq
      exact inv_updP _ _ _ _ (fun p hp' => hp _ p hp')
    · rw [lookupP_setP_ne _ _ _ _ he] at hq
      exact hp qid q hq

theorem inv_sweep (st : OrchState) (now : Int) (h : StateInv st) :
    StateInv (pipeline_monitoring_pass st now) := by
  obtain ⟨hk, hp⟩ := h
  constructor
  · exact keysND_map _ _ hk
  · intro qid q hq
    simp only [pipeline_monitoring_pass] at hq
    rw [lookupP_map] at hq
    rcases ho : lookupP st.active_pipelines qid with _ | p
    · rw [ho] at hq; simp at hq
    · rw [ho] at hq
      simp only [Option.map_some'] at hq
      cases hq
      obtain ⟨hnd, hiff⟩ := hp qid p ho
      unfold sweepP
      by_cases hs : isStalled now p
      · simp only [if_pos hs]
        refine ⟨hnd, ?_⟩
        have hrun : p.status = "running" := by
          have := (Bool.and_eq_true _ _ ▸ hs).1
          simpa [isStalled] using this
        constructor
        · intro hc
          exact absurd hc (by simp)
        · intro hlen
          have hcompleted := hiff.mpr hlen
          rw [hrun] at hcompleted
          exact absurd hcompleted (by simp)
      · simp only [if_neg hs]
        exact ⟨hnd, hiff⟩

theorem inv_cleanup (st : OrchState) (now : Int) (h : StateInv st) :
    StateInv (cleanup_old_pipelines_pass st now) := by
  obtain ⟨hk, hp⟩ := h
  constructor
  · exact keysND_filter _ _ hk
  · intro qid q hq
    simp only [cleanup_old_pipelines_pass] at hq
    exact hp qid q (lookupP_filter _ _ _ _ hk hq)

theorem inv_applyStep (st : OrchState) (s : Step) (h : StateInv st) :
    StateInv (applyStep st s) := by
  cases s with
  | msg m now => exact inv_process st m now h
  | sweep now => exact inv_sweep st now h
  | cleanup now => exact inv_cleanup st now h

theorem inv_foldl (steps : List Step) (st : OrchState) (h : StateInv st) :
    StateInv (steps.foldl applyStep st) := by
  induction steps generalizing st with
  | nil => exact h
  | cons s rest ih => exact ih _ (inv_applyStep st s h)

theorem reachable_inv (st : OrchState) (h : Reachable st) : StateInv st := by
  obtain ⟨steps, hs⟩ := h
  rw [← hs]
  exact inv_foldl steps initState inv_init

/-- Processing messages that all extract to `pid` acts on the tracked entry
for `pid` exactly as `foldPipe` over their classified stages. -/
theorem runMsgs_lookup (msgs : List (Msg × Int)) (st : OrchState) (pid : String)
    (p : PipelineStatus) (hpid : ∀ x ∈ msgs, extract_pipeline_id x.1 = pid)
    (hp : lookupP st.active_pipelines pid = some p) :
    lookupP (runMsgs st msgs).active_pipelines pid =
      some (foldPipe p pid (msgs.map fun x => (determine_stage_from_message x.1, x.2))) := by
  induction msgs generalizing st p with
  | nil => simpa [runMsgs, foldPipe] using hp
  | cons x rest ih =>
    have hx : extract_pipeline_id x.1 = pid := hpid x (List.mem_cons_self _ _)
    have hstep : lookupP (process_pipeline_message st x.1 x.2).active_pipelines pid =
        some (updP (some p) pid (determine_stage_from_message x.1) x.2).1 := by
      rw [process_active_pipelines, hx, hp, lookupP_setP_self]
    have hrun : runMsgs st (x :: rest) =
        runMsgs (process_pipeline_message st x.1 x.2) rest := rfl
    rw [hrun, List.map_cons]
    exact ih (process_pipeline_message st x.1 x.2)
      (updP (some p) pid (determine_stage_from_message x.1) x.2).1
      (fun y hy => hpid y (List.mem_cons_of_mem _ hy)) hstep

/-- Folding fresh, pairwise-distinct stages: the recorded list extends by
exactly those stages in arrival order, the start time is untouched, and the
status flips to `completed` exactly when six slots get filled. -/
theorem foldPipe_spec (xs : List (String × Int)) (pid : String) (p : PipelineStatus)
    (h : (p.stages_completed ++ xs.map Prod.fst).Nodup) :
    (foldPipe p pid xs).stages_completed = p.stages_completed ++ xs.map Prod.fst ∧
    (foldPipe p pid xs).start_time = p.start_time ∧
    (xs ≠ [] → 6 ≤ p.stages_completed.length + xs.length →
      (foldPipe p pid xs).status = "completed") ∧
    (p.stages_completed.length + xs.length < 6 →
      (foldPipe p pid xs).status = p.status) := by
  induction xs generalizing p with
  | nil => simp [foldPipe]
  | cons x rest ih =>
    obtain ⟨stage, now⟩ := x
    simp only [List.map_cons] at h
    have hmem : stage ∉ p.stages_completed := by
      intro hin
      rcases List.nodup_append.mp h with ⟨-, -, hdisj⟩
      exact hdisj hin (List.mem_cons_self _ _)
    have h1s : ((updP (some p) pid stage now).1).stages_completed =
        p.stages_completed ++ [stage] := by
      rw [updP_stages]
      simp [hmem]
    have h1t : ((updP (some p) pid stage now).1).start_time = p.start_time := by
      simpa using updP_start (some p) pid stage now
    have h1st : ((updP (some p) pid stage now).1).status =
        if 6 ≤ p.stages_completed.length + 1 then "completed" else p.status := by
      have hs := updP_status (some p) pid stage now
      rw [h1s] at hs
      simpa using hs
    have hnd1 : (((updP (some p) pid stage now).1).stages_completed ++
        rest.map Prod.fst).Nodup := by
      rw [h1s]
      simpa [List.append_assoc] using h
    obtain ⟨ihs, ihstart, ihc, ihn⟩ := ih (updP (some p) pid stage now).1 hnd1
    have hfold : foldPipe p pid ((stage, now) :: rest) =
        foldPipe (updP (some p) pid stage now).1 pid rest := rfl
    refine ⟨?_, ?_, ?_, ?_⟩
    · rw [hfold, ihs, h1s]
      simp
    · rw [hfold, ihstart, h1t]
    · intro _ hlen
      have hlen' : 6 ≤ p.stages_completed.length + (rest.length + 1) := by
        simpa using hlen
      have hlen1 : ((updP (some p) pid stage now).1).stages_completed.length =
          p.stages_completed.length + 1 := by
        rw [h1s]
        simp
      rw [hfold]
      rcases eq_or_ne rest [] with hre | hre
      · subst hre
        have hc : 6 ≤ p.stages_completed.length + 1 := by
          simp only [List.length_nil] at hlen'
          omega
        simp only [foldPipe]
        rw [h1st, if_pos hc]
      · refine ihc hre ?_
        omega
    · intro hlen
      have hlen' : p.stages_completed.length + (rest.length + 1) < 6 := by
        simpa using hlen
      have hlen1 : ((updP (some p) pid stage now).1).stages_completed.length =
          p.stages_completed.length + 1 := by
        rw [h1s]
        simp
      rw [hfold]
      have hsmall : ((updP (some p) pid stage now).1).stages_completed.length +
          rest.length < 6 := by omega
      have hnot : ¬ 6 ≤ p.stages_completed.length + 1 := by omega
      rw [ihn hsmall, h1st, if_neg hnot]

theorem lastN_length_le {α : Type} (n : Nat) (l : List α) : (lastN n l).length ≤ n := by
  unfold lastN
  rw [List.length_drop]
  omega

/-- Appending one entry to a buffer holding the last 1000 of `E` and then
truncating to the last 1000 yields the last 1000 of `E ++ [e]`. -/
theorem lastN_snoc (E : List PipelineMessage) (e : PipelineMessage) :
    (if 1000 < (lastN 1000 E ++ [e]).length
     then (lastN 1000 E ++ [e]).drop ((lastN 1000 E ++ [e]).length - 1000)
     else lastN 1000 E ++ [e]) = lastN 1000 (E ++ [e]) := by
  by_cases hE : E.length ≤ 999
  · have h1 : lastN 1000 E = E := by
      unfold lastN
      rw [Nat.sub_eq_zero_of_le (by omega), List.drop_zero]
    rw [h1]
    have h2 : ¬ 1000 < (E ++ [e]).length := by
      rw [List.length_append, List.length_singleton]
      omega
    rw [if_neg h2]
    unfold lastN
    rw [Nat.sub_eq_zero_of_le (by rw [List.length_append, List.length_singleton]; omega),
      List.drop_zero]
  · push_neg at hE
    have hlen : (lastN 1000 E).length = 1000 := by
      unfold lastN
      rw [List.length_drop]
      omega
    have h2 : 1000 < (lastN 1000 E ++ [e]).length := by
      rw [List.length_append, List.length_singleton, hlen]
      omega
    have h3 : (lastN 1000 E ++ [e]).length - 1000 = 1 := by
      rw [List.length_append, List.length_singleton, hlen]
    rw [if_pos h2, h3]
    unfold lastN
    rw [List.drop_append_of_le_length (by rw [List.length_drop]; omega)]
    rw [List.drop_drop]
    have h4 : (E ++ [e]).length - 1000 = (E.length - 1000) + 1 := by
      rw [List.length_append, List.length_singleton]
      omega
    rw [h4, List.drop_append_of_le_length (by omega)]

/-- One message step keeps the history equal to the last 1000 entries seen. -/
theorem history_step (st : OrchState) (m : Msg) (now : Int) (E : List PipelineMessage)
    (h : st.message_history = lastN 1000 E) :
    (process_pipeline_message st m now).message_history =
      lastN 1000 (E ++ [mkPipelineMessage m now]) := by
  have hproc : (process_pipeline_message st m now).message_history =
      (if 1000 < (st.message_history ++ [mkPipelineMessage m now]).length
       then (st.message_history ++ [mkPipelineMessage m now]).drop
         ((st.message_history ++ [mkPipelineMessage m now]).length - 1000)
       else st.message_history ++ [mkPipelineMessage m now]) := rfl
  rw [hproc, h, lastN_snoc]

/-- Monitoring and cleanup passes leave the history alone. -/
theorem history_sweep (st : OrchState) (now : Int) :
    (pipeline_monitoring_pass st now).message_history = st.message_history := rfl

theorem history_cleanup (st : OrchState) (now : Int) :
    (cleanup_old_pipelines_pass st now).message_history = st.message_history := rfl

theorem history_foldl (steps : List Step) (st : OrchState) (E : List PipelineMessage)
    (h : st.message_history = lastN 1000 E) :
    (steps.foldl applyStep st).message_history = lastN 1000 (E ++ traceEntries steps) := by
  induction steps generalizing st E with
  | nil => simpa [traceEntries] using h
  | cons s rest ih =>
    cases s with
    | msg m now =>
      have hstep := history_step st m now E h
      have := ih (process_pipeline_message st m now) (E ++ [mkPipelineMessage m now]) hstep
      simpa [traceEntries, applyStep, List.append_assoc] using this
    | sweep now =>
      have := ih (pipeline_monitoring_pass st now) E (by rw [history_sweep]; exact h)
      simpa [traceEntries, applyStep] using this
    | cleanup now =>
      have := ih (cleanup_old_pipelines_pass st now) E (by rw [history_cleanup]; exact h)
      simpa [traceEntries, applyStep] using this

/-- Claim C4 is false as stated: this message carries the recognized agent
hint `planning-agent`, yet because a result-shaped field (`test_results`) is
present the classifier returns `deployment`, not `planning` — the code checks
the result-shaped fields before the agent hint. -/
theorem C4_counterexample :
    agentHint c4msg "planning" = true ∧
    determine_stage_from_message c4msg = "deployment" := by
  constructor <;> decide

/-- Claim C4 (amended): stage classification is the first-match cascade that
probes, in order, the result-shaped fields (any of `test_results`,
`coverage_report`, `quality_metrics`, `overall_status` gives `deployment`),
then the agent-name hints, then `plan_id`, `blueprint_id`, `code_id`,
`test_id`, `tasks`, and returns `unknown` when nothing matches; hence a
result-shaped field decides over an agent hint, and an agent hint decides
over the id-shaped fields. -/
theorem C4_amended (m : Msg) :
    determine_stage_from_message m = determine_stage_spec m := by
  have hspec : determine_stage_spec m =
      (if result_fields.any (fun f => hasField m f) then "deployment"
       else if agentHint m "test-agent" then "deployment"
       else if agentHint m "planning" then "planning"
       else if agentHint m "blueprint" then "blueprint"
       else if agentHint m "code" then "coding"
       else if agentHint m "analysis" then "analysis"
       else if hasField m "plan_id" then "planning"
       else if hasField m "blueprint_id" then "blueprint"
       else if hasField m "code_id" then "coding"
       else if hasField m "test_id" then "testing"
       else if hasField m "tasks" then "analysis"
       else "unknown") := rfl
  cases hm : getMeta m "agent" with
  | none =>
    have hdet : determine_stage_from_message m =
        (if result_fields.any (fun f => hasField m f) then "deployment"
         else structural_stage m) := by
      unfold determine_stage_from_message
      rw [hm]
    have h1 : agentHint m "test-agent" = false := by simp [agentHint, hm]
    have h2 : agentHint m "planning" = false := by simp [agentHint, hm]
    have h3 : agentHint m "blueprint" = false := by simp [agentHint, hm]
    have h4 : agentHint m "code" = false := by simp [agentHint, hm]
    have h5 : agentHint m "analysis" = false := by simp [agentHint, hm]
    rw [hdet, hspec]
    simp only [h1, h2, h3, h4, h5, Bool.false_eq_true, if_false, structural_stage]
  | some a =>
    have hdet : determine_stage_from_message m =
        (if result_fields.any (fun f => hasField m f) then "deployment"
         else if containsSub a "test-agent" then "deployment"
         else if containsSub a "planning" then "planning"
         else if containsSub a "blueprint" then "blueprint"
         else if containsSub a "code" then "coding"
         else if containsSub a "analysis" then "analysis"
         else structural_stage m) := by
      unfold determine_stage_from_message
      rw [hm]
    have h1 : agentHint m "test-agent" = containsSub a "test-agent" := by
      simp [agentHint, hm]
    have h2 : agentHint m "planning" = containsSub a "planning" := by
      simp [agentHint, hm]
    have h3 : agentHint m "blueprint" = containsSub a "blueprint" := by
      simp [agentHint, hm]
    have h4 : agentHint m "code" = containsSub a "code" := by
      simp [agentHint, hm]
    have h5 : agentHint m "analysis" = containsSub a "analysis" := by
      simp [agentHint, hm]
    rw [hdet, hspec]
    simp only [h1, h2, h3, h4, h5, structural_stage]

theorem firstFieldValue_none (look : String → Option String) (fields : List String)
    (h : ∀ f ∈ fields, look f = none) : firstFieldValue look fields = none := by
  induction fields with
  | nil => rfl
  | cons f fs ih =>
    have hf := h f (List.mem_cons_self _ _)
    simp only [firstFieldValue, hf]
    exact ih (fun g hg => h g (List.mem_cons_of_mem _ hg))

/-- Claim C7: pipeline-id extraction follows exactly the claimed priority
order (direct `pipeline_id`/`request_id`, then `plan_id`, `blueprint_id`,
`code_id`, `test_id`, then metadata `pipeline_id`/`request_id`/`parent_id`,
then the body hash), and the hash fallback is deterministic: two messages
with none of those fields and equal serialized bodies get the same synthetic
pipeline id. -/
theorem C7_extraction :
    (∀ m, extract_pipeline_id m = extract_pipeline_id_spec m) ∧
    (∀ m₁ m₂ : Msg,
      (∀ f ∈ id_fields, getField m₁ f = none) →
      (∀ f ∈ metadata_id_fields, getMeta m₁ f = none) →
      (∀ f ∈ id_fields, getField m₂ f = none) →
      (∀ f ∈ metadata_id_fields, getMeta m₂ f = none) →
      m₁.body = m₂.body →
      extract_pipeline_id m₁ = extract_pipeline_id m₂) := by
  constructor
  · intro m
    simp only [extract_pipeline_id, extract_pipeline_id_spec, id_fields, metadata_id_fields,
      firstFieldValue]
    cases getField m "pipeline_id" <;>
      cases getField m "request_id" <;>
      cases getField m "plan_id" <;>
      cases getField m "blueprint_id" <;>
      cases getField m "code_id" <;>
      cases getField m "test_id" <;>
      cases getMeta m "pipeline_id" <;>
      cases getMeta m "request_id" <;>
      cases getMeta m "parent_id" <;>
      rfl
  · intro m₁ m₂ h1 h2 h3 h4 hb
    unfold extract_pipeline_id
    rw [firstFieldValue_none _ _ h1, firstFieldValue_none _ _ h2,
      firstFieldValue_none _ _ h3, firstFieldValue_none _ _ h4, hb]

/-- Witness for C7 at two concrete id-less messages with equal bodies. -/
theorem C7_witness : extract_pipeline_id c7m1 = extract_pipeline_id c7m2 :=
  C7_extraction.2 c7m1 c7m2 (by decide) (by decide) (by decide) (by decide) rfl

/-- Claim C9: after any schedule of steps the history holds the last 1000
entries generated, and its size never exceeds 1000 — once more than 1000
messages have been processed it is exactly the 1000 most recent ones. -/
theorem C9_bounded_history (steps : List Step) :
    (run steps).message_history = lastN 1000 (traceEntries steps) ∧
    (run steps).message_history.length ≤ 1000 := by
  have h0 : initState.message_history = lastN 1000 [] := rfl
  have h := history_foldl steps initState [] h0
  have hrun : (run steps).message_history = lastN 1000 (traceEntries steps) := by
    simpa [run] using h
  exact ⟨hrun, by rw [hrun]; exact lastN_length_le 1000 _⟩

/-- Claim C10: publishing while the client is not running returns normally
with no callback invocation and the client (its topic registry included)
unchanged — the message is silently dropped, with no retry. -/
theorem C10_publish_not_running (c : SimpleMessagingClient) (topic : String) (m : Msg)
    (h : c.is_running = false) :
    SimpleMessagingClient.publish c topic m = (c, []) := by
  simp [SimpleMessagingClient.publish, h]

/-- Witness for C10: a started, subscribed, then stopped client drops a
publish without invoking the subscriber. -/
theorem C10_witness :
    SimpleMessagingClient.publish c10client "tasks.analysis" c10msg = (c10client, []) :=
  C10_publish_not_running c10client "tasks.analysis" c10msg rfl

/-- Claim C5 is false as stated on the active (in-memory) client: two
subscriptions sharing group id `workers` BOTH receive the one published
message (the dispatch list has both handlers), not "together exactly once,
never both" — the in-memory client ignores group ids. -/
theorem C5_counterexample :
    (SimpleMessagingClient.publish c5client "tasks.planning" c5msg).2 =
      [(1, c5msg), (2, c5msg)] ∧
    ((SimpleMessagingClient.publish c5client "tasks.planning" c5msg).2).length = 2 := by
  constructor <;> rfl

/-- Claim C5 (amended): on the running in-memory client every callback
registered on a topic — whatever group id it subscribed under — receives each
published message exactly once; registrations with different group ids each
see every message (that half of the claim stands), and two registrations with
the same group id each see it too, so together they observe it twice. -/
theorem C5_amended (c : SimpleMessagingClient) (topic : String) (m : Msg)
    (h : c.is_running = true) :
    (SimpleMessagingClient.publish c topic m).2 =
      (SimpleMessagingClient.topicCallbacks c topic).map (fun cb => (cb, m)) := by
  unfold SimpleMessagingClient.publish SimpleMessagingClient.topicCallbacks
  rw [h]
  cases SimpleMessagingClient.lookupT c.topics topic <;> simp

/-- Witness for C5 (amended) at the concrete two-subscriber client. -/
theorem C5_witness :
    (SimpleMessagingClient.publish c5client "tasks.planning" c5msg).2 =
      (SimpleMessagingClient.topicCallbacks c5client "tasks.planning").map
        (fun cb => (cb, c5msg)) :=
  C5_amended c5client "tasks.planning" c5msg rfl

/-- Claim C1 is false as stated: after six messages for pipeline `p1` — one
of which classifies as `unknown` — the reachable state marks `p1` completed
(six distinct labels recorded) although the canonical stage `analysis` was
never recorded, so `completed` does not imply `stages_completed` contains the
canonical six. -/
theorem C1_counterexample :
    Reachable (run c1steps) ∧
    (lookupP (run c1steps).active_pipelines "p1").map
        (fun p => (p.status, decide ("analysis" ∈ p.stages_completed))) =
      some ("completed", false) :=
  ⟨⟨c1steps, rfl⟩, by decide⟩

/-- Claim C1 (amended): in every reachable state a tracked pipeline has
status `completed` exactly when at least six distinct stage labels (possibly
including `unknown`) have been recorded in `stages_completed`; containing the
whole canonical six-stage set still implies `completed`, but `completed` only
guarantees six distinct labels, not the canonical six. -/
theorem C1_amended (st : OrchState) (h : Reachable st) (pid : String)
    (p : PipelineStatus) (hp : lookupP st.active_pipelines pid = some p) :
    (p.status = "completed" ↔ 6 ≤ p.stages_completed.length) ∧
    (stage_order ⊆ p.stages_completed → p.status = "completed") := by
  obtain ⟨hnd, hiff⟩ := (reachable_inv st h).2 pid p hp
  refine ⟨hiff, fun hsub => ?_⟩
  have hsp : List.Subperm stage_order p.stages_completed :=
    List.subperm_of_subset (by decide) hsub
  have hlen := hsp.length_le
  exact hiff.mpr (by simpa [stage_order] using hlen)

/-- Witness for C1 (amended) at a concrete one-message run. -/
theorem C1_witness :
    ∃ p, lookupP (run c1wsteps).active_pipelines "w1" = some p ∧
      ((p.status = "completed" ↔ 6 ≤ p.stages_completed.length) ∧
       (stage_order ⊆ p.stages_completed → p.status = "completed")) :=
  ⟨_, rfl, C1_amended (run c1wsteps) ⟨c1wsteps, rfl⟩ "w1" _ rfl⟩

/-- Claim C2 is false as stated: after completing pipeline `p2` at time 5
(`total_duration = 5`, one `pipeline_completed` event), re-delivering the
deployment message at time 6 reassigns `total_duration` to 6 and publishes a
second `pipeline_completed` event — the completion block re-fires on every
message once six stages are recorded. -/
theorem C2_counterexample :
    completedEventCount (run c2six).events "p2" = 1 ∧
    (lookupP (run c2six).active_pipelines "p2").bind PipelineStatus.total_duration =
      some 5 ∧
    completedEventCount (run c2seven).events "p2" = 2 ∧
    (lookupP (run c2seven).active_pipelines "p2").bind PipelineStatus.total_duration =
      some 6 := by
  refine ⟨?_, ?_, ?_, ?_⟩ <;> decide

/-- Claim C2 (amended): on every `update_pipeline_status` call, if the
pipeline ends the call with at least six recorded stages then
`total_duration` is (re)assigned to `now - start_time` and exactly one
`pipeline_completed` event is published — the first time at the transition
into `completed` and again on every later message bearing the same pipeline
id; while fewer than six stages are recorded, `total_duration` is untouched
and no `pipeline_completed` event is published. -/
theorem C2_amended (st : OrchState) (pid stage : String) (now : Int)
    (p' : PipelineStatus)
    (h : lookupP (update_pipeline_status st pid stage now).active_pipelines pid = some p') :
    (6 ≤ p'.stages_completed.length →
      p'.total_duration = some (now - p'.start_time) ∧
      completedEventCount (update_pipeline_status st pid stage now).events pid =
        completedEventCount st.events pid + 1) ∧
    (p'.stages_completed.length < 6 →
      p'.total_duration =
        (lookupP st.active_pipelines pid).bind PipelineStatus.total_duration ∧
      completedEventCount (update_pipeline_status st pid stage now).events pid =
        completedEventCount st.events pid) := by
  rw [lookup_update, Option.some_inj] at h
  subst h
  have hdur := updP_duration (lookupP st.active_pipelines pid) pid stage now
  have hcnt := updP_events_count (lookupP st.active_pipelines pid) pid stage now
  have hev : (update_pipeline_status st pid stage now).events =
      st.events ++ (updP (lookupP st.active_pipelines pid) pid stage now).2 := rfl
  rw [hev, completedEventCount_append, hcnt]
  constructor
  · intro hlen
    rw [if_pos hlen] at hdur ⊢
    exact ⟨hdur, rfl⟩
  · intro hlen
    have hnot : ¬ 6 ≤
        (updP (lookupP st.active_pipelines pid) pid stage now).1.stages_completed.length := by
      omega
    rw [if_neg hnot] at hdur ⊢
    refine ⟨?_, rfl⟩
    rw [hdur]
    cases lookupP st.active_pipelines pid <;> rfl

/-- Witness for C2 (amended) at a concrete first update on a fresh state. -/
theorem C2_witness :
    ∃ p', lookupP (update_pipeline_status initState "w2" "planning" 0).active_pipelines
        "w2" = some p' ∧
      ((6 ≤ p'.stages_completed.length →
        p'.total_duration = some (0 - p'.start_time) ∧
        completedEventCount (update_pipeline_status initState "w2" "planning" 0).events
            "w2" =
          completedEventCount initState.events "w2" + 1) ∧
       (p'.stages_completed.length < 6 →
        p'.total_duration =
          (lookupP initState.active_pipelines "w2").bind PipelineStatus.total_duration ∧
        completedEventCount (update_pipeline_status initState "w2" "planning" 0).events
            "w2" =
          completedEventCount initState.events "w2")) :=
  ⟨_, rfl, C2_amended initState "w2" "planning" 0 _ rfl⟩

/-- Claim C6: re-processing a message whose stage is already recorded for its
pipeline leaves `stages_completed` unchanged, and in every reachable state no
recorded stage list ever holds a duplicate. -/
theorem C6_idempotent :
    (∀ (st : OrchState) (m : Msg) (now : Int) (p : PipelineStatus),
      lookupP st.active_pipelines (extract_pipeline_id m) = some p →
      determine_stage_from_message m ∈ p.stages_completed →
      ∃ p', lookupP (process_pipeline_message st m now).active_pipelines
          (extract_pipeline_id m) = some p' ∧
        p'.stages_completed = p.stages_completed) ∧
    (∀ st, Reachable st → ∀ pid p, lookupP st.active_pipelines pid = some p →
      p.stages_completed.Nodup) := by
  constructor
  · intro st m now p hp hmem
    refine ⟨(updP (some p) (extract_pipeline_id m) (determine_stage_from_message m) now).1,
      ?_, ?_⟩
    · rw [process_active_pipelines, hp, lookupP_setP_self]
    · rw [updP_stages]
      simp [hmem]
  · intro st hr pid p hp
    exact ((reachable_inv st hr).2 pid p hp).1

/-- Witness for C6: re-delivering the planning message leaves the recorded
stage list `["planning"]` unchanged, and it is duplicate-free. -/
theorem C6_witness :
    (∃ p', lookupP (process_pipeline_message (run c6steps) c6msg 1).active_pipelines
        (extract_pipeline_id c6msg) = some p' ∧
      p'.stages_completed = c6p.stages_completed) ∧
    c6p.stages_completed.Nodup :=
  ⟨C6_idempotent.1 (run c6steps) c6msg 1 c6p (by decide) (by decide),
   C6_idempotent.2 (run c6steps) ⟨c6steps, rfl⟩ "w6" c6p (by decide)⟩

/-- Claim C8: (1) processing an inbound message never transitions a pipeline
into `stalled` (a pipeline is stalled after a message only if it already
was); (2) a monitoring pass maps each tracked pipeline to `stalled` exactly
when it is `running` with `last_update_time` more than 600 seconds old, and
leaves it untouched otherwise (so never earlier than the threshold); (3) the
pass publishes a `pipeline_stalled` event for each pipeline it flags. -/
theorem C8_stall_detection :
    (∀ (st : OrchState) (m : Msg) (now : Int) (qid : String) (p' : PipelineStatus),
      lookupP (process_pipeline_message st m now).active_pipelines qid = some p' →
      p'.status = "stalled" →
      ∃ p, lookupP st.active_pipelines qid = some p ∧ p.status = "stalled") ∧
    (∀ (st : OrchState) (now : Int) (pid : String) (p : PipelineStatus),
      lookupP st.active_pipelines pid = some p →
      lookupP (pipeline_monitoring_pass st now).active_pipelines pid =
        some (if p.status = "running" ∧ 600 < now - p.last_update_time
              then { p with status := "stalled" } else p)) ∧
    (∀ (st : OrchState) (now : Int) (pid : String) (p : PipelineStatus),
      lookupP st.active_pipelines pid = some p →
      p.status = "running" → 600 < now - p.last_update_time →
      (⟨"pipeline_stalled", pid, p.current_stage⟩ : Event) ∈
        (pipeline_monitoring_pass st now).events) := by
  refine ⟨?_, ?_, ?_⟩
  · intro st m now qid p' hp' hstall
    by_cases he : qid = extract_pipeline_id m
    · subst he
      rw [process_active_pipelines, lookupP_setP_self, Option.some_inj] at hp'
      rcases ho : lookupP st.active_pipelines (extract_pipeline_id m) with _ | p
      · rw [ho] at hp'
        have hst := updP_status none (extract_pipeline_id m)
          (determine_stage_from_message m) now
        rw [← hp', hst] at hstall
        by_cases h6 : 6 ≤ (updP none (extract_pipeline_id m)
            (determine_stage_from_message m) now).1.stages_completed.length
        · rw [if_pos h6] at hstall
          exact absurd hstall (by decide)
        · rw [if_neg h6] at hstall
          exact absurd hstall (by decide)
      · rw [ho] at hp'
        have hst := updP_status (some p) (extract_pipeline_id m)
          (determine_stage_from_message m) now
        rw [← hp', hst] at hstall
        by_cases h6 : 6 ≤ (updP (some p) (extract_pipeline_id m)
            (determine_stage_from_message m) now).1.stages_completed.length
        · rw [if_pos h6] at hstall
          exact absurd hstall (by decide)
        · rw [if_neg h6] at hstall
          exact ⟨p, rfl, hstall⟩
    · rw [process_active_pipelines, lookupP_setP_ne _ _ _ _ he] at hp'
      exact ⟨p', hp', hstall⟩
  · intro st now pid p hp
    have hl : lookupP (pipeline_monitoring_pass st now).active_pipelines pid =
        (lookupP st.active_pipelines pid).map (sweepP now) := by
      simp only [pipeline_monitoring_pass]
      exact lookupP_map _ _ _
    rw [hl, hp, Option.map_some']
    congr 1
    unfold sweepP
    by_cases hc : p.status = "running" ∧ 600 < now - p.last_update_time
    · rw [if_pos ?_, if_pos hc]
      simp only [isStalled, Bool.and_eq_true, beq_iff_eq, decide_eq_true_eq]
      exact ⟨hc.1, hc.2⟩
    · rw [if_neg ?_, if_neg hc]
      simp only [isStalled, Bool.and_eq_true, beq_iff_eq, decide_eq_true_eq]
      exact fun hx => hc ⟨hx.1, hx.2⟩
  · intro st now pid p hp hrun hlt
    have hmem : (pid, p) ∈ st.active_pipelines := mem_of_lookupP _ _ _ hp
    have hstall : isStalled now p = true := by
      simp [isStalled, hrun, hlt]
    have hev : (pipeline_monitoring_pass st now).events =
        st.events ++
          (st.active_pipelines.filter (fun kv => isStalled now kv.2)).map
            (fun kv => ⟨"pipeline_stalled", kv.1, kv.2.current_stage⟩) := rfl
    rw [hev]
    refine List.mem_append_right _ ?_
    exact List.mem_map.mpr ⟨(pid, p), List.mem_filter.mpr ⟨hmem, hstall⟩, rfl⟩

/-- Witness for C8: a pipeline created at time 0 is flagged by the sweep at
time 1000 (with a `pipeline_stalled` event), and a message processed on the
stalled state finds it already stalled. -/
theorem C8_witness :
    (∃ p, lookupP c8swept.active_pipelines "w8" = some p ∧ p.status = "stalled") ∧
    lookupP (pipeline_monitoring_pass (run c8steps) 1000).active_pipelines "w8" =
      some (if c8p.status = "running" ∧ 600 < 1000 - c8p.last_update_time
            then { c8p with status := "stalled" } else c8p) ∧
    (⟨"pipeline_stalled", "w8", "planning"⟩ : Event) ∈
      (pipeline_monitoring_pass (run c8steps) 1000).events :=
  ⟨C8_stall_detection.1 c8swept c8msg 1001 "w8" c8p' (by decide) rfl,
   C8_stall_detection.2.1 (run c8steps) 1000 "w8" c8p (by decide),
   C8_stall_detection.2.2 (run c8steps) 1000 "w8" c8p (by decide) rfl (by decide)⟩

/-- Claim C3: for any six timed messages — one classifying to each of the six
canonical stages, in any order, all extracting to one pipeline id —
processing them from a fresh orchestrator leaves that pipeline `completed`
with `stages_completed` containing exactly the six canonical stages. -/
theorem C3_order_tolerance (msgs : List (Msg × Int)) (pid : String)
    (hstage : (msgs.map fun x => determine_stage_from_message x.1).Perm stage_order)
    (hpid : ∀ x ∈ msgs, extract_pipeline_id x.1 = pid) :
    ∃ p, lookupP (runMsgs initState msgs).active_pipelines pid = some p ∧
      p.status = "completed" ∧ p.stages_completed.Perm stage_order := by
  have hlen : msgs.length = 6 := by
    have h := hstage.length_eq
    simpa [stage_order] using h
  cases msgs with
  | nil => simp at hlen
  | cons x rest =>
    have hr5 : rest.length = 5 := by
      simp only [List.length_cons] at hlen
      omega
    have hx : extract_pipeline_id x.1 = pid := hpid x (List.mem_cons_self _ _)
    have h0 : lookupP initState.active_pipelines pid = none := rfl
    have hstep : lookupP
        (process_pipeline_message initState x.1 x.2).active_pipelines pid =
        some (updP none pid (determine_stage_from_message x.1) x.2).1 := by
      rw [process_active_pipelines, hx, h0, lookupP_setP_self]
    have hlook := runMsgs_lookup rest (process_pipeline_message initState x.1 x.2) pid
      (updP none pid (determine_stage_from_message x.1) x.2).1
      (fun y hy => hpid y (List.mem_cons_of_mem _ hy)) hstep
    have hrun : runMsgs initState (x :: rest) =
        runMsgs (process_pipeline_message initState x.1 x.2) rest := rfl
    have h1s : ((updP none pid (determine_stage_from_message x.1) x.2).1).stages_completed =
        [determine_stage_from_message x.1] := by
      rw [updP_stages]
    have hmapfst :
        ((rest.map fun y => (determine_stage_from_message y.1, y.2)).map Prod.fst) =
          rest.map fun y => determine_stage_from_message y.1 := by
      simp [List.map_map, Function.comp_def]
    have hndall :
        (determine_stage_from_message x.1 ::
          rest.map fun y => determine_stage_from_message y.1).Nodup := by
      have hn := hstage.nodup_iff.mpr (by decide : stage_order.Nodup)
      rw [List.map_cons] at hn
      exact hn
    have hnd : (((updP none pid (determine_stage_from_message x.1) x.2).1).stages_completed ++
        ((rest.map fun y => (determine_stage_from_message y.1, y.2)).map Prod.fst)).Nodup := by
      rw [h1s, hmapfst, List.singleton_append]
      exact hndall
    obtain ⟨hs, hstart, hc, _⟩ := foldPipe_spec
      (rest.map fun y => (determine_stage_from_message y.1, y.2)) pid
      (updP none pid (determine_stage_from_message x.1) x.2).1 hnd
    refine ⟨foldPipe (updP none pid (determine_stage_from_message x.1) x.2).1 pid
      (rest.map fun y => (determine_stage_from_message y.1, y.2)), ?_, ?_, ?_⟩
    · rw [hrun]
      exact hlook
    · apply hc
      · have hm5 : (rest.map fun y => (determine_stage_from_message y.1, y.2)).length = 5 := by
          simp [hr5]
        intro hnil
        rw [hnil] at hm5
        simp at hm5
      · rw [h1s]
        simp only [List.length_singleton, List.length_map]
        omega
    · rw [hs, h1s, hmapfst, List.singleton_append]
      exact hstage

/-- Witness for C3 at six concrete out-of-order stage messages for `w3`. -/
theorem C3_witness :
    ∃ p, lookupP (runMsgs initState c3msgs).active_pipelines "w3" = some p ∧
      p.status = "completed" ∧ p.stages_completed.Perm stage_order :=
  C3_order_tolerance c3msgs "w3" (by decide) (by decide)

